import Mathlib

/-!
Verification of the moneyball betting engine against its specification.

The development shallowly embeds the decision-relevant parts of the source:

* `Strategy.kelly_ratio`'s grid search over capital-scaling multipliers
  (src/moneyball/strategy/strategy.py, lines 326-353);
* `Portfolio.fit`'s walk-forward blending loop
  (src/moneyball/portfolio/portfolio.py, lines 60-89);
* `Strategy.fit`'s `make_y` winner labelling (strategy.py, lines 365-377);
* `Strategy.next`'s betting-horizon filter (strategy.py, lines 429-442);
* `Portfolio.next_bets`'s recommendation assembly (portfolio.py, lines 120-144);
* the `Strategy.df` property getter/setter (strategy.py, lines 306-319) and the
  null-dataframe precondition guards of `fit`, `predict` and `kelly_ratio`.

Floating point values are modelled as rationals; dates as integers (or
rationals, for the sub-day horizon arithmetic of `Strategy.next`).
-/

namespace Moneyball

/-! ## Strategy.kelly_ratio: the grid search (strategy.py lines 337-349)

The loop body is

  for i in range(100):
      test_kelly_ratio = (100 - i) / 100.0
      returns = calculate_returns(test_kelly_ratio, df.copy(), self._name)
      value = calculate_value(returns)
      if value > max_return or max_kelly == 0.0:
          max_return = value
          max_kelly = test_kelly_ratio

with `max_return = 0.0` and `max_kelly = 0.0` initially.  The objective
`calculate_value (calculate_returns k df name)` lives in
`moneyball/strategy/kelly_fractions.py`, which is not part of the sources
under verification; for a fixed dataframe it is a pure function of the trial
index, abstracted below as `value : ℕ → ℚ`. -/

/-- The candidate multiplier of trial `i`: `(100 - i) / 100.0`. -/
def testKellyRatio (i : ℕ) : ℚ := ((100 : ℚ) - (i : ℚ)) / 100

/-- The loop state of the search: `max_return` and `max_kelly`. -/
structure SearchState where
  maxReturn : ℚ
  maxKelly : ℚ
deriving DecidableEq

/-- One iteration of the search loop: accept the candidate when its value
strictly exceeds the best so far, or unconditionally when `max_kelly` is
still `0.0` (which is the case exactly at the first iteration). -/
def kellyStep (value : ℕ → ℚ) (s : SearchState) (i : ℕ) : SearchState :=
  if s.maxReturn < value i ∨ s.maxKelly = 0 then
    { maxReturn := value i, maxKelly := testKellyRatio i }
  else s

/-- The whole search: fold the loop body over `range(100)` starting from
`max_return = 0.0`, `max_kelly = 0.0`. -/
def kellySearch (value : ℕ → ℚ) : SearchState :=
  (List.range 100).foldl (kellyStep value) ⟨0, 0⟩

/-- The list of candidate multipliers evaluated by the loop, in trial order. -/
def kellyCandidates : List ℚ := (List.range 100).map testKellyRatio

lemma testKellyRatio_pos {j : ℕ} (hj : j < 100) : 0 < testKellyRatio j := by
  have hcast : (j : ℚ) ≤ 99 := by exact_mod_cast Nat.lt_succ_iff.mp hj
  unfold testKellyRatio
  apply div_pos _ (by norm_num)
  linarith

lemma testKellyRatio_le_one (j : ℕ) : testKellyRatio j ≤ 1 := by
  unfold testKellyRatio
  rw [div_le_one (by norm_num)]
  have : (0 : ℚ) ≤ (j : ℚ) := Nat.cast_nonneg j
  linarith

lemma testKellyRatio_anti {i j : ℕ} (h : i ≤ j) : testKellyRatio j ≤ testKellyRatio i := by
  unfold testKellyRatio
  have hij : (i : ℚ) ≤ (j : ℚ) := by exact_mod_cast h
  rw [div_le_div_iff_of_pos_right (by norm_num)]
  linarith

/-- Invariant of the search loop: after `n ≥ 1` iterations the state holds the
value of some trial `j < n` which is maximal among the first `n` trials, and
`j` is the first trial attaining that maximum. -/
lemma kellySearch_invariant (value : ℕ → ℚ) :
    ∀ n, 1 ≤ n → n ≤ 100 →
      ∃ j, j < n ∧
        ((List.range n).foldl (kellyStep value) ⟨0, 0⟩).maxKelly = testKellyRatio j ∧
        ((List.range n).foldl (kellyStep value) ⟨0, 0⟩).maxReturn = value j ∧
        (∀ i, i < n → value i ≤ value j) ∧
        (∀ i, i < j → value i < value j) := by
  intro n
  induction n with
  | zero => intro h1 _; omega
  | succ m ih =>
    intro _ h100
    have hfold : (List.range (m + 1)).foldl (kellyStep value) ⟨0, 0⟩
        = kellyStep value ((List.range m).foldl (kellyStep value) ⟨0, 0⟩) m := by
      rw [List.range_succ, List.foldl_append, List.foldl_cons, List.foldl_nil]
    by_cases hm : m = 0
    · subst hm
      refine ⟨0, Nat.zero_lt_one, ?_, ?_, ?_, ?_⟩
      · rw [hfold]
        simp [kellyStep]
      · rw [hfold]
        simp [kellyStep]
      · intro i hi
        have : i = 0 := by omega
        subst this; exact le_refl _
      · intro i hi; omega
    · have hm1 : 1 ≤ m := Nat.one_le_iff_ne_zero.mpr hm
      obtain ⟨j, hjm, hK, hR, hmax, hfirst⟩ := ih hm1 (by omega)
      have hKne : ((List.range m).foldl (kellyStep value) ⟨0, 0⟩).maxKelly ≠ 0 := by
        rw [hK]
        exact ne_of_gt (testKellyRatio_pos (by omega))
      by_cases hv : ((List.range m).foldl (kellyStep value) ⟨0, 0⟩).maxReturn < value m
      · refine ⟨m, Nat.lt_succ_self m, ?_, ?_, ?_, ?_⟩
        · rw [hfold, kellyStep, if_pos (Or.inl hv)]
        · rw [hfold, kellyStep, if_pos (Or.inl hv)]
        · intro i hi
          rcases Nat.lt_succ_iff_lt_or_eq.mp hi with hi' | hi'
          · exact le_of_lt (lt_of_le_of_lt (hmax i hi') (hR ▸ hv))
          · subst hi'; exact le_refl _
        · intro i hi
          exact lt_of_le_of_lt (hmax i hi) (hR ▸ hv)
      · refine ⟨j, by omega, ?_, ?_, ?_, hfirst⟩
        · rw [hfold, kellyStep, if_neg (by push_neg; exact ⟨not_lt.mp hv, hKne⟩)]
          exact hK
        · rw [hfold, kellyStep, if_neg (by push_neg; exact ⟨not_lt.mp hv, hKne⟩)]
          exact hR
        · intro i hi
          rcases Nat.lt_succ_iff_lt_or_eq.mp hi with hi' | hi'
          · exact hmax i hi'
          · subst hi'
            rw [← hR]
            exact not_lt.mp hv

/-- The result of the search is the value of a first-encountered maximal trial. -/
lemma kellySearch_spec (value : ℕ → ℚ) :
    ∃ j, j < 100 ∧ (kellySearch value).maxKelly = testKellyRatio j ∧
      (∀ i, i < 100 → value i ≤ value j) ∧
      (∀ i, i < j → value i < value j) := by
  obtain ⟨j, hj, hK, _, hmax, hfirst⟩ :=
    kellySearch_invariant value 100 (by norm_num) (le_refl 100)
  exact ⟨j, hj, hK, hmax, hfirst⟩

attribute [irreducible] kellySearch

lemma mem_kellyCandidates (k : ℚ) :
    k ∈ kellyCandidates ↔ ∃ m : ℕ, 1 ≤ m ∧ m ≤ 100 ∧ k = (m : ℚ) / 100 := by
  unfold kellyCandidates
  simp only [List.mem_map, List.mem_range]
  constructor
  · rintro ⟨j, hj, rfl⟩
    refine ⟨100 - j, by omega, by omega, ?_⟩
    unfold testKellyRatio
    have : ((100 - j : ℕ) : ℚ) = (100 : ℚ) - (j : ℚ) := by
      push_cast [Nat.cast_sub (le_of_lt hj)]
      ring
    rw [this]
  · rintro ⟨m, hm1, hm100, rfl⟩
    refine ⟨100 - m, by omega, ?_⟩
    unfold testKellyRatio
    have : ((100 - m : ℕ) : ℚ) = (100 : ℚ) - (m : ℚ) := by
      push_cast [Nat.cast_sub hm100]
      ring
    rw [this]
    ring

/-- C2: the kelly-ratio search evaluates exactly 100 candidate multipliers —
the evenly spaced grid `{0.01, 0.02, ..., 1.00}` covering `(0, 1]` — and
returns the candidate with the highest objective value; when two candidates
achieve the same highest value, the larger multiplier is returned (the loop
iterates candidates in decreasing order and only a strictly greater value
displaces the incumbent). -/
theorem kelly_ratio_grid_argmax (value : ℕ → ℚ) :
    kellyCandidates.length = 100 ∧
    (∀ k : ℚ, k ∈ kellyCandidates ↔ ∃ m : ℕ, 1 ≤ m ∧ m ≤ 100 ∧ k = (m : ℚ) / 100) ∧
    ∃ j, j < 100 ∧ (kellySearch value).maxKelly = testKellyRatio j ∧
      (∀ i, i < 100 → value i ≤ value j) ∧
      (∀ i, i < 100 → value i = value j → testKellyRatio i ≤ testKellyRatio j) := by
  refine ⟨by simp [kellyCandidates], mem_kellyCandidates, ?_⟩
  obtain ⟨j, hj, hK, hmax, hfirst⟩ := kellySearch_spec value
  refine ⟨j, hj, hK, hmax, ?_⟩
  intro i _ hie
  have hji : j ≤ i := by
    by_contra hlt
    exact absurd hie (ne_of_lt (hfirst i (not_le.mp hlt)))
  exact testKellyRatio_anti hji

/-- Closed instance of `kelly_ratio_grid_argmax` at the constant objective. -/
theorem kelly_ratio_grid_argmax_witness :
    kellyCandidates.length = 100 ∧
    (∀ k : ℚ, k ∈ kellyCandidates ↔ ∃ m : ℕ, 1 ≤ m ∧ m ≤ 100 ∧ k = (m : ℚ) / 100) ∧
    ∃ j, j < 100 ∧ (kellySearch (fun _ => 0)).maxKelly = testKellyRatio j ∧
      (∀ i, i < 100 → (fun _ => (0 : ℚ)) i ≤ (fun _ => (0 : ℚ)) j) ∧
      (∀ i, i < 100 → (fun _ => (0 : ℚ)) i = (fun _ => (0 : ℚ)) j →
        testKellyRatio i ≤ testKellyRatio j) :=
  kelly_ratio_grid_argmax (fun _ => 0)

/-- C9: the search always returns one of the 100 grid candidates in `(0, 1]`;
in particular it never returns 0 and never exceeds 1.  The first candidate
`k = 1.0` is accepted unconditionally (the `max_kelly == 0.0` disjunct holds
on the first iteration), so `max_kelly` can never retain its initial 0. -/
theorem kelly_ratio_in_grid (value : ℕ → ℚ) :
    0 < (kellySearch value).maxKelly ∧
    (kellySearch value).maxKelly ≤ 1 ∧
    (kellySearch value).maxKelly ∈ kellyCandidates ∧
    kellyStep value ⟨0, 0⟩ 0 = ⟨value 0, 1⟩ := by
  obtain ⟨j, hj, hK, _, _⟩ := kellySearch_spec value
  refine ⟨?_, ?_, ?_, ?_⟩
  · rw [hK]; exact testKellyRatio_pos hj
  · rw [hK]; exact testKellyRatio_le_one j
  · rw [hK]
    exact List.mem_map.mpr ⟨j, List.mem_range.mpr hj, rfl⟩
  · rw [kellyStep, if_pos (Or.inr rfl)]
    have : testKellyRatio 0 = 1 := by unfold testKellyRatio; norm_num
    rw [this]

/-- Closed instance of `kelly_ratio_in_grid` at the constant objective. -/
theorem kelly_ratio_in_grid_witness :
    0 < (kellySearch (fun _ => (0 : ℚ))).maxKelly ∧
    (kellySearch (fun _ => (0 : ℚ))).maxKelly ≤ 1 ∧
    (kellySearch (fun _ => (0 : ℚ))).maxKelly ∈ kellyCandidates ∧
    kellyStep (fun _ => (0 : ℚ)) ⟨0, 0⟩ 0 = ⟨0, 1⟩ :=
  kelly_ratio_in_grid (fun _ => 0)

/-! ## Portfolio.fit: the walk-forward blending loop (portfolio.py lines 60-89)

The loop is

  for index in returns.index:
      dt = index
      x = returns[returns.index < dt]
      if x.empty or len(np.unique(x)) < 10:
          ret.loc[index, self._name] = (returns.loc[index] * (1.0 / len(returns.columns.values))).sum()
      else:
          port = rp.Portfolio(returns=returns)
          weights = port.optimization(model="Classic", rm="MV", obj="MaxRet", hist=True)
          total_ret = 0.0
          for col in returns:
              ret.loc[index, col] *= weights[col]
              total_ret += ret.loc[index, col]
          ret.loc[index, self._name] = total_ret

Note that the optimization call receives the FULL `returns` frame, not the
strictly-earlier slice `x`.  The returns matrix is embedded as a list of
dated rows over `n` strategy columns; the external `riskfolio` optimizer is
a parameter `opt`, always applied to the exact frame the code passes it. -/

/-- One row of the per-strategy returns matrix: a date and one return per
strategy column. -/
structure RetRow (n : ℕ) where
  date : ℤ
  rets : Fin n → ℚ

/-- All cell values of a slice of the returns matrix, row-major — the value
population that `np.unique(x)` deduplicates. -/
def histValues {n : ℕ} (rows : List (RetRow n)) : List ℚ :=
  rows.foldr (fun r acc => List.ofFn r.rets ++ acc) []

/-- The equal-weight fallback value for a date:
`(returns.loc[index] * (1.0 / len(returns.columns.values))).sum()`. -/
def equalWeightReturn {n : ℕ} (row : RetRow n) : ℚ :=
  (List.ofFn (fun i => row.rets i * (1 / (n : ℚ)))).sum

/-- The blended value recorded for one date by the loop body.  `opt` stands
for `rp.Portfolio(returns=·).optimization(...)`; as in the code it is applied
to the full matrix `rows`, not to the strictly-earlier slice. -/
def portfolioFitRow {n : ℕ} (opt : List (RetRow n) → Fin n → ℚ)
    (rows : List (RetRow n)) (row : RetRow n) : ℚ :=
  if (rows.filter (fun r => r.date < row.date)).isEmpty = true ∨
      (histValues (rows.filter (fun r => r.date < row.date))).dedup.length < 10 then
    equalWeightReturn row
  else
    (List.ofFn (fun i => row.rets i * opt rows i)).sum

/-- The portfolio column produced by `Portfolio.fit`: the blended return
recorded for each date of the returns matrix (daily resampling, zero fill
and UTC localisation of the final frame are omitted: they do not alter the
values recorded for dates present in the matrix). -/
def portfolioFit {n : ℕ} (opt : List (RetRow n) → Fin n → ℚ)
    (rows : List (RetRow n)) : List (ℤ × ℚ) :=
  rows.map (fun row => (row.date, portfolioFitRow opt rows row))

/-- C3: for a date whose strictly-earlier history has fewer than 10 distinct
return values (an empty history has 0), the recorded portfolio return is the
equal-weight `1/N` blend of that date's per-strategy returns. -/
theorem portfolio_equal_weight_fallback {n : ℕ} (opt : List (RetRow n) → Fin n → ℚ)
    (rows : List (RetRow n)) (row : RetRow n) (hmem : row ∈ rows)
    (hfew : (histValues (rows.filter (fun r => r.date < row.date))).dedup.length < 10) :
    portfolioFitRow opt rows row = equalWeightReturn row ∧
    (row.date, equalWeightReturn row) ∈ portfolioFit opt rows := by
  have hr : portfolioFitRow opt rows row = equalWeightReturn row := by
    unfold portfolioFitRow
    rw [if_pos (Or.inr hfew)]
  refine ⟨hr, ?_⟩
  unfold portfolioFit
  exact List.mem_map.mpr ⟨row, hmem, by rw [hr]⟩

/-- A 3-strategy all-zero returns matrix over dates 0-5 (the date-5 row is
listed first; the loop looks rows up by date, not by position). -/
def zeroRows : List (RetRow 3) :=
  ⟨5, fun _ => 0⟩ :: [⟨0, fun _ => 0⟩, ⟨1, fun _ => 0⟩, ⟨2, fun _ => 0⟩,
    ⟨3, fun _ => 0⟩, ⟨4, fun _ => 0⟩]

/-- Witness for `portfolio_equal_weight_fallback`: a 5-date all-zero history
over 3 strategies has a single distinct value, so date 5 is blended with
weights `1/3` per strategy. -/
theorem portfolio_equal_weight_fallback_witness :
    (histValues (zeroRows.filter
      (fun r => r.date < (5 : ℤ)))).dedup.length < 10 ∧
    portfolioFitRow (fun _ _ => 0) zeroRows ⟨5, fun _ => 0⟩ =
      equalWeightReturn (⟨5, fun _ => 0⟩ : RetRow 3) ∧
    ((5 : ℤ), equalWeightReturn (⟨5, fun _ => 0⟩ : RetRow 3)) ∈
      portfolioFit (fun _ _ => 0) zeroRows := by
  refine ⟨by decide, ?_⟩
  have h := portfolio_equal_weight_fallback (fun _ _ => 0) zeroRows ⟨5, fun _ => 0⟩
    (List.mem_cons_self _ _) (by decide)
  exact h

/-- A two-column function with the given values at indices 0 and 1. -/
def twoCol (a b : ℚ) : Fin 2 → ℚ :=
  fun i => if i.val = 0 then a else b

/-- The mean of one strategy column of a returns matrix. -/
def colMean (rows : List (RetRow 2)) (i : Fin 2) : ℚ :=
  (rows.map (fun r => r.rets i)).sum / (rows.length : ℚ)

/-- Modelled from the spec: the external `riskfolio` call
`rp.Portfolio(returns=...).optimization(model="Classic", rm="MV", obj="MaxRet", hist=True)`
is not repository code; spec 4.5 describes it as a mean-variance allocator
that maximises expected return with mean estimated from the series it is
given.  It is modelled as placing full weight on the column with the higher
mean of the frame it receives (ties to column 0).  The lookahead result below
depends only on the optimizer actually reading the frame the code passes it,
which here is the full returns matrix. -/
def maxRetOpt (rows : List (RetRow 2)) : Fin 2 → ℚ :=
  if colMean rows 1 ≤ colMean rows 0 then twoCol 1 0 else twoCol 0 1

/-- A 2-strategy matrix: dates 0-9 give history values 1..10 and 0 (11
distinct values, enough to leave the fallback), date 10 is the decision date,
date 11 is a future row favouring strategy 0. -/
def rowsFut0 : List (RetRow 2) :=
  [⟨0, twoCol 1 0⟩, ⟨1, twoCol 2 0⟩, ⟨2, twoCol 3 0⟩, ⟨3, twoCol 4 0⟩,
   ⟨4, twoCol 5 0⟩, ⟨5, twoCol 6 0⟩, ⟨6, twoCol 7 0⟩, ⟨7, twoCol 8 0⟩,
   ⟨8, twoCol 9 0⟩, ⟨9, twoCol 10 0⟩, ⟨10, twoCol 2 1⟩, ⟨11, twoCol 100 0⟩]

/-- The same matrix with only the date-11 row (strictly after the decision
date 10) changed to favour strategy 1. -/
def rowsFut1 : List (RetRow 2) :=
  [⟨0, twoCol 1 0⟩, ⟨1, twoCol 2 0⟩, ⟨2, twoCol 3 0⟩, ⟨3, twoCol 4 0⟩,
   ⟨4, twoCol 5 0⟩, ⟨5, twoCol 6 0⟩, ⟨6, twoCol 7 0⟩, ⟨7, twoCol 8 0⟩,
   ⟨8, twoCol 9 0⟩, ⟨9, twoCol 10 0⟩, ⟨10, twoCol 2 1⟩, ⟨11, twoCol 0 100⟩]

/-- C1 fails on the code: the two matrices agree on every row up to and
including the decision date 10 and differ only at the strictly-later date 11,
yet the weights used for date 10 and the blended return recorded for date 10
both change — because `Portfolio.fit` hands the optimizer the full returns
frame instead of the strictly-earlier slice `x` it computes. -/
lemma maxRetOpt_rowsFut0 : maxRetOpt rowsFut0 = twoCol 1 0 := by
  have h : colMean rowsFut0 1 ≤ colMean rowsFut0 0 := by
    simp [colMean, rowsFut0, twoCol]
    norm_num
  unfold maxRetOpt
  rw [if_pos h]

lemma maxRetOpt_rowsFut1 : maxRetOpt rowsFut1 = twoCol 0 1 := by
  have h : ¬ colMean rowsFut1 1 ≤ colMean rowsFut1 0 := by
    simp [colMean, rowsFut1, twoCol]
    norm_num
  unfold maxRetOpt
  rw [if_neg h]

lemma lookahead_cond0 :
    ¬((rowsFut0.filter (fun r => r.date < (10 : ℤ))).isEmpty = true ∨
      (histValues (rowsFut0.filter (fun r => r.date < (10 : ℤ)))).dedup.length < 10) := by
  decide

lemma lookahead_cond1 :
    ¬((rowsFut1.filter (fun r => r.date < (10 : ℤ))).isEmpty = true ∨
      (histValues (rowsFut1.filter (fun r => r.date < (10 : ℤ)))).dedup.length < 10) := by
  decide

lemma portfolioFitRow_rowsFut0 :
    portfolioFitRow maxRetOpt rowsFut0 ⟨10, twoCol 2 1⟩ = 2 := by
  unfold portfolioFitRow
  rw [if_neg lookahead_cond0, maxRetOpt_rowsFut0]
  simp [twoCol]

lemma portfolioFitRow_rowsFut1 :
    portfolioFitRow maxRetOpt rowsFut1 ⟨10, twoCol 2 1⟩ = 1 := by
  unfold portfolioFitRow
  rw [if_neg lookahead_cond1, maxRetOpt_rowsFut1]
  simp [twoCol]

/-- C1 fails on the code: the two matrices agree on every row up to and
including the decision date 10 and differ only at the strictly-later date 11,
yet the weights used for date 10 and the blended return recorded for date 10
both change — because `Portfolio.fit` hands the optimizer the full returns
frame instead of the strictly-earlier slice `x` it computes. -/
theorem portfolio_fit_lookahead :
    rowsFut0.take 11 = rowsFut1.take 11 ∧
    maxRetOpt rowsFut0 0 = 1 ∧ maxRetOpt rowsFut1 0 = 0 ∧
    portfolioFitRow maxRetOpt rowsFut0 ⟨10, twoCol 2 1⟩ = 2 ∧
    portfolioFitRow maxRetOpt rowsFut1 ⟨10, twoCol 2 1⟩ = 1 ∧
    ((10 : ℤ), (2 : ℚ)) ∈ portfolioFit maxRetOpt rowsFut0 ∧
    ((10 : ℤ), (1 : ℚ)) ∈ portfolioFit maxRetOpt rowsFut1 := by
  refine ⟨rfl, ?_, ?_, portfolioFitRow_rowsFut0, portfolioFitRow_rowsFut1, ?_, ?_⟩
  · rw [maxRetOpt_rowsFut0]; simp [twoCol]
  · rw [maxRetOpt_rowsFut1]; simp [twoCol]
  · exact List.mem_map.mpr ⟨⟨10, twoCol 2 1⟩, by simp [rowsFut0],
      by rw [portfolioFitRow_rowsFut0]⟩
  · exact List.mem_map.mpr ⟨⟨10, twoCol 2 1⟩, by simp [rowsFut1],
      by rw [portfolioFitRow_rowsFut1]⟩

/-! ## Strategy.df: the training-table property (strategy.py lines 306-319)

  @property
  def df(self):
      df = self._df
      if df is None:
          return None
      return df.sort_values(by=DT_COLUMN, ascending=True)

  @df.setter
  def df(self, df):
      self._df = df.sort_values(by=DT_COLUMN, ascending=True)
      df.to_parquet(os.path.join(self._name, _DF_FILENAME), compression="gzip")
      self._df = pd.read_parquet(os.path.join(self._name, _DF_FILENAME))

A dataframe row is abstracted to its datetime key plus one payload column;
`sort_values` is modelled as a sort by the datetime key (only sortedness and
row preservation matter, not the tie order, which `sort_values` leaves
implementation-defined). -/

/-- One row of the training table: the `DT_COLUMN` key and a payload. -/
structure DFRow where
  dt : ℤ
  payload : ℚ
deriving DecidableEq

/-- Row order by the datetime column. -/
def dtLE (a b : DFRow) : Prop := a.dt ≤ b.dt

instance : DecidableRel dtLE := fun a b => inferInstanceAs (Decidable (a.dt ≤ b.dt))

instance : IsTotal DFRow dtLE := ⟨fun a b => le_total a.dt b.dt⟩

instance : IsTrans DFRow dtLE := ⟨fun _ _ _ => le_trans⟩

/-- `df.sort_values(by=DT_COLUMN, ascending=True)`. -/
def sortValuesByDt (rows : List DFRow) : List DFRow :=
  List.insertionSort dtLE rows

/-- The persistent and in-memory state of a `Strategy`: the `_df` attribute
and the per-strategy files on disk (name, contents). -/
structure StrategyState where
  storedDf : Option (List DFRow)
  files : List (String × List DFRow)

/-- The `df` property getter: `None` when no table is set, otherwise the
stored table sorted by the datetime column. -/
def Strategy.df (st : StrategyState) : Option (List DFRow) :=
  match st.storedDf with
  | none => none
  | some rows => some (sortValuesByDt rows)

/-- The `df` property setter: the sorted assignment to `self._df` is
immediately overwritten by re-reading the parquet file, which was written
from the UNSORTED argument — so the stored table and the persisted copy both
keep the caller's row order. -/
def Strategy.setDf (st : StrategyState) (rows : List DFRow) : StrategyState :=
  { storedDf := some rows
    files := ("df.parquet.gzip", rows) ::
      st.files.filter (fun f => f.1 ≠ "df.parquet.gzip") }

/-- C10: whenever a training table is present the getter returns its rows
sorted ascending by the datetime column — a permutation of the stored rows —
and this holds regardless of the order the table was assigned in, even
though the setter stores and persists the unsorted frame. -/
theorem df_getter_sorted (st : StrategyState) (rows : List DFRow)
    (h : st.storedDf = some rows) :
    Strategy.df st = some (sortValuesByDt rows) ∧
    List.Sorted dtLE (sortValuesByDt rows) ∧
    List.Perm (sortValuesByDt rows) rows ∧
    (∀ assigned : List DFRow,
      (Strategy.setDf st assigned).storedDf = some assigned ∧
      ("df.parquet.gzip", assigned) ∈ (Strategy.setDf st assigned).files ∧
      Strategy.df (Strategy.setDf st assigned) = some (sortValuesByDt assigned) ∧
      List.Sorted dtLE (sortValuesByDt assigned) ∧
      List.Perm (sortValuesByDt assigned) assigned) := by
  refine ⟨?_, List.sorted_insertionSort dtLE rows, List.perm_insertionSort dtLE rows, ?_⟩
  · unfold Strategy.df
    rw [h]
  · intro assigned
    exact ⟨rfl, List.mem_cons_self _ _, rfl,
      List.sorted_insertionSort dtLE assigned, List.perm_insertionSort dtLE assigned⟩

/-- Witness for `df_getter_sorted`: a two-row table stored in descending
order is read back ascending. -/
theorem df_getter_sorted_witness :
    (StrategyState.mk (some [⟨3, 0⟩, ⟨1, 7⟩]) []).storedDf = some [⟨3, 0⟩, ⟨1, 7⟩] ∧
    (Strategy.df (StrategyState.mk (some [⟨3, 0⟩, ⟨1, 7⟩]) []) =
      some (sortValuesByDt [⟨3, 0⟩, ⟨1, 7⟩]) ∧
    List.Sorted dtLE (sortValuesByDt [⟨3, 0⟩, ⟨1, 7⟩]) ∧
    List.Perm (sortValuesByDt [⟨3, 0⟩, ⟨1, 7⟩]) [⟨3, 0⟩, ⟨1, 7⟩] ∧
    (∀ assigned : List DFRow,
      (Strategy.setDf (StrategyState.mk (some [⟨3, 0⟩, ⟨1, 7⟩]) []) assigned).storedDf
        = some assigned ∧
      ("df.parquet.gzip", assigned) ∈
        (Strategy.setDf (StrategyState.mk (some [⟨3, 0⟩, ⟨1, 7⟩]) []) assigned).files ∧
      Strategy.df (Strategy.setDf (StrategyState.mk (some [⟨3, 0⟩, ⟨1, 7⟩]) []) assigned)
        = some (sortValuesByDt assigned) ∧
      List.Sorted dtLE (sortValuesByDt assigned) ∧
      List.Perm (sortValuesByDt assigned) assigned)) :=
  ⟨rfl, df_getter_sorted (StrategyState.mk (some [⟨3, 0⟩, ⟨1, 7⟩]) []) [⟨3, 0⟩, ⟨1, 7⟩] rfl⟩

/-! ## Precondition guards of fit, predict and kelly_ratio

  def kelly_ratio(self, df):          # strategy.py lines 326-330
      main_df = self.df
      if main_df is None:
          raise ValueError("main_df is null")

  def fit(self):                      # strategy.py lines 355-359
      df = self.df
      if df is None:
          raise ValueError("df is null")

  def predict(self):                  # strategy.py lines 383-387
      df = self.df
      if df is None:
          raise ValueError("df is null.")

Each embedding returns `Except`: `.error` embeds the raised `ValueError`,
`.ok` carries the frame the method goes on to work with (the remainder of
each method is outside the guard under verification). -/

/-- The guard prefix of `Strategy.fit`. -/
def Strategy.fitGuard (st : StrategyState) : Except String (List DFRow) :=
  match Strategy.df st with
  | none => .error "df is null"
  | some rows => .ok rows

/-- The guard prefix of `Strategy.predict`. -/
def Strategy.predictGuard (st : StrategyState) : Except String (List DFRow) :=
  match Strategy.df st with
  | none => .error "df is null."
  | some rows => .ok rows

/-- The guard prefix of `Strategy.kelly_ratio`. -/
def Strategy.kellyRatioGuard (st : StrategyState) : Except String (List DFRow) :=
  match Strategy.df st with
  | none => .error "main_df is null"
  | some rows => .ok rows

/-- C8: with no training table set, `fit`, `predict` and `kelly_ratio` each
raise a descriptive `ValueError` at their first statement rather than
proceeding or returning a default; with a table present each proceeds. -/
theorem missing_df_fails_fast (st : StrategyState) (h : st.storedDf = none) :
    Strategy.fitGuard st = .error "df is null" ∧
    Strategy.predictGuard st = .error "df is null." ∧
    Strategy.kellyRatioGuard st = .error "main_df is null" ∧
    (∀ st2 : StrategyState, ∀ rows, st2.storedDf = some rows →
      Strategy.fitGuard st2 = .ok (sortValuesByDt rows) ∧
      Strategy.predictGuard st2 = .ok (sortValuesByDt rows) ∧
      Strategy.kellyRatioGuard st2 = .ok (sortValuesByDt rows)) := by
  have hdf : Strategy.df st = none := by
    unfold Strategy.df
    rw [h]
  refine ⟨?_, ?_, ?_, ?_⟩
  · unfold Strategy.fitGuard; rw [hdf]
  · unfold Strategy.predictGuard; rw [hdf]
  · unfold Strategy.kellyRatioGuard; rw [hdf]
  · intro st2 rows h2
    have hdf2 : Strategy.df st2 = some (sortValuesByDt rows) := by
      unfold Strategy.df
      rw [h2]
    exact ⟨by unfold Strategy.fitGuard; rw [hdf2],
      by unfold Strategy.predictGuard; rw [hdf2],
      by unfold Strategy.kellyRatioGuard; rw [hdf2]⟩

/-- Witness for `missing_df_fails_fast` at the empty strategy state. -/
theorem missing_df_fails_fast_witness :
    (StrategyState.mk none []).storedDf = none ∧
    Strategy.fitGuard (StrategyState.mk none []) = .error "df is null" ∧
    Strategy.predictGuard (StrategyState.mk none []) = .error "df is null." ∧
    Strategy.kellyRatioGuard (StrategyState.mk none []) = .error "main_df is null" := by
  have h := missing_df_fails_fast (StrategyState.mk none []) rfl
  exact ⟨rfl, h.1, h.2.1, h.2.2.1⟩

/-! ## Strategy.next: the betting-horizon filter (strategy.py lines 429-442)

  start_dt = datetime.datetime.now(datetime.timezone.utc)
  end_dt = start_dt + datetime.timedelta(days=3.0)
  df = df[df[dt_column] > start_dt]
  df = df[df[dt_column] <= end_dt]

Times are modelled in days as rationals; a prediction row is its scheduled
time paired with a payload. -/

/-- The two filters applied by `Strategy.next` to the prediction frame:
keep rows strictly after `startDt` and at most `startDt + 3` days. -/
def nextWindowFilter (startDt : ℚ) (rows : List (ℚ × ℚ)) : List (ℚ × ℚ) :=
  (rows.filter (fun r => startDt < r.1)).filter (fun r => r.1 ≤ startDt + 3)

/-- C6: every row emitted by the next-bet selection is scheduled strictly
after the current time and at most three days later; rows outside the window
never appear (the output is a sublist of the input). -/
theorem next_window_bounds (startDt : ℚ) (rows : List (ℚ × ℚ)) (r : ℚ × ℚ)
    (hr : r ∈ nextWindowFilter startDt rows) :
    startDt < r.1 ∧ r.1 ≤ startDt + 3 ∧ r ∈ rows := by
  unfold nextWindowFilter at hr
  rw [List.mem_filter] at hr
  obtain ⟨hr1, hle⟩ := hr
  rw [List.mem_filter] at hr1
  obtain ⟨hmem, hgt⟩ := hr1
  exact ⟨by simpa using hgt, by simpa using hle, hmem⟩

/-- Witness for `next_window_bounds`: a row one day out survives the filter
and satisfies the bounds. -/
theorem next_window_bounds_witness :
    (1, 7) ∈ nextWindowFilter 0 [(-2, 5), (1, 7), (9, 9)] ∧
    ((0 : ℚ) < 1 ∧ (1 : ℚ) ≤ 0 + 3 ∧ ((1 : ℚ), (7 : ℚ)) ∈ [(-2, 5), (1, 7), (9, 9)]) := by
  have hmem : ((1 : ℚ), (7 : ℚ)) ∈ nextWindowFilter 0 [(-2, 5), (1, 7), (9, 9)] := by
    unfold nextWindowFilter
    rw [List.mem_filter, List.mem_filter]
    refine ⟨⟨by simp, by norm_num⟩, by norm_num⟩
  exact ⟨hmem, next_window_bounds 0 [(-2, 5), (1, 7), (9, 9)] (1, 7) hmem⟩

/-! ## Strategy.fit / make_y: the "place" winner labelling (strategy.py 365-377)

For more than two teams the code labels winners with

  ind = np.argpartition(y.to_numpy(), -self._place)[-self._place :]
  for i in range(teams):
      y[DELIMITER.join(["team", str(i), "win"])] = i in ind

`np.argpartition` over the 2-D points array works along the LAST axis: every
output row is a permutation of the column indices `0..teams-1` whose final
`place` entries index that event's top-`place` scores.  It is embedded as a
per-row ascending argsort, which is one valid argpartition output (the
theorem below only uses that each output row is a permutation, which holds
for every argpartition implementation).  The slice `[-self._place :]` is then
taken over the FIRST axis — it keeps the last `place` event rows, not the
last `place` index columns — and `i in ind` is the numpy 2-D membership test,
broadcast to every event. -/

/-- Row order of indices by their value in an event row. -/
def valLE (row : List ℚ) (i j : ℕ) : Prop := row.getD i 0 ≤ row.getD j 0

instance (row : List ℚ) : DecidableRel (valLE row) :=
  fun i j => inferInstanceAs (Decidable (row.getD i 0 ≤ row.getD j 0))

/-- One row of the argpartition result: the event's column indices sorted
ascending by score. -/
def argsortRow (row : List ℚ) : List ℕ :=
  List.insertionSort (valLE row) (List.range row.length)

/-- `np.argpartition(y, -place)[-place :]`: per-row argpartition of the
points matrix, then the slice keeping only the last `place` ROWS. -/
def placeInd (place : ℕ) (y : List (List ℚ)) : List (List ℕ) :=
  (y.map argsortRow).drop (y.length - place)

/-- `i in ind` for the sliced 2-D array, the value assigned to the whole
`team_i_win` column. -/
def teamWinLabel (place : ℕ) (y : List (List ℚ)) (i : ℕ) : Bool :=
  (placeInd place y).any (fun r => r.contains i)

/-- C4 fails on the code: with `place = 2` and one event whose four
participants score `[10, 8, 9, 5]`, the argpartition row `[3, 1, 2, 0]` does
put the top-2 columns `{2, 0}` (scores 9 and 10) last, but the `[-place :]`
slice keeps whole event rows, and a numpy membership test on a row that is a
permutation of all column indices is true for every index — so all four
participants are labelled winners, not exactly the two highest scorers. -/
theorem place_rule_all_winners :
    argsortRow [10, 8, 9, 5] = [3, 1, 2, 0] ∧
    teamWinLabel 2 [[10, 8, 9, 5]] 0 = true ∧
    teamWinLabel 2 [[10, 8, 9, 5]] 1 = true ∧
    teamWinLabel 2 [[10, 8, 9, 5]] 2 = true ∧
    teamWinLabel 2 [[10, 8, 9, 5]] 3 = true := by
  decide

/-! ## Strategy.kelly_ratio: persistence of the search outcome

  df.to_parquet(os.path.join(self._name, "returns_df.parquet.gzip"))
  ... (the grid search) ...
  print(f"Max Kelly: {max_kelly}")
  self._returns = calculate_returns(max_kelly, df.copy(), self._name)
  return max_kelly

The only file written by `kelly_ratio` is the kelly-fraction-augmented
dataframe, written BEFORE the search; the winning multiplier is returned to
the caller and the winning return series is assigned to the in-memory
`self._returns` attribute.  `calculate_returns`/`calculate_value` live in
`kelly_fractions.py`, which is not among the sources under verification.
Modelled from the spec: sections 4.2-4.4 describe them as pure computations
(scale fractions, normalize, simulate, score), so they are embedded as pure
function parameters. -/

/-- The observable outcome of one `kelly_ratio` call: files written during
the call, the `_returns` attribute, and the returned multiplier. -/
structure KellyRatioResult where
  persistedFiles : List (String × List ℚ)
  returnsMem : Option (List ℚ)
  result : ℚ

/-- Embeds the effects of `Strategy.kelly_ratio` (strategy.py lines 326-353)
for an already-augmented fractions frame `augmented`. -/
def kellyRatioRun (augmented : List ℚ) (calcReturns : ℚ → List ℚ)
    (calcValue : List ℚ → ℚ) : KellyRatioResult :=
  { persistedFiles := [("returns_df.parquet.gzip", augmented)]
    returnsMem := some (calcReturns
      (kellySearch (fun i => calcValue (calcReturns (testKellyRatio i)))).maxKelly)
    result := (kellySearch (fun i => calcValue (calcReturns (testKellyRatio i)))).maxKelly }

lemma kellyRatioRun_result (augmented : List ℚ) (calcReturns : ℚ → List ℚ)
    (calcValue : List ℚ → ℚ) :
    (kellyRatioRun augmented calcReturns calcValue).result
      = (kellySearch (fun i => calcValue (calcReturns (testKellyRatio i)))).maxKelly := rfl

lemma kellyRatioRun_returnsMem (augmented : List ℚ) (calcReturns : ℚ → List ℚ)
    (calcValue : List ℚ → ℚ) :
    (kellyRatioRun augmented calcReturns calcValue).returnsMem
      = some (calcReturns
          (kellySearch (fun i => calcValue (calcReturns (testKellyRatio i)))).maxKelly) := rfl

lemma kellySearch_const_zero : (kellySearch (fun _ => (0 : ℚ))).maxKelly = 1 := by
  obtain ⟨j, hj, hK, _, hfirst⟩ := kellySearch_spec (fun _ => (0 : ℚ))
  have hj0 : j = 0 := by
    by_contra hne
    exact lt_irrefl (0 : ℚ) (hfirst 0 (Nat.pos_of_ne_zero hne))
  subst hj0
  rw [hK]
  unfold testKellyRatio
  norm_num

lemma testKellyRatio_eq_half {i : ℕ} : testKellyRatio i = 1 / 2 ↔ i = 50 := by
  unfold testKellyRatio
  constructor
  · intro h
    rw [div_eq_iff (by norm_num : (100 : ℚ) ≠ 0)] at h
    have : (i : ℚ) = 50 := by linarith
    exact_mod_cast this
  · rintro rfl
    norm_num

/-- A returns oracle that is flat except at `k = 1/2`. -/
def crHalfSpike : ℚ → List ℚ := fun k => if k = 1 / 2 then [5] else [0]

/-- A flat returns oracle. -/
def crZero : ℚ → List ℚ := fun _ => [0]

/-- A constant objective. -/
def cvZero : List ℚ → ℚ := fun _ => 0

/-- The objective reading off the head of the series. -/
def cvHead : List ℚ → ℚ := fun l => l.headD 0

lemma kellySearch_spike :
    (kellySearch (fun i => cvHead (crHalfSpike (testKellyRatio i)))).maxKelly = 1 / 2 := by
  obtain ⟨j, hj, hK, hmax, _⟩ :=
    kellySearch_spec (fun i => cvHead (crHalfSpike (testKellyRatio i)))
  have hval : ∀ i : ℕ, cvHead (crHalfSpike (testKellyRatio i))
      = if testKellyRatio i = 1 / 2 then 5 else 0 := by
    intro i
    unfold cvHead crHalfSpike
    split <;> simp
  have h50 : cvHead (crHalfSpike (testKellyRatio 50)) = 5 := by
    rw [hval 50, if_pos (testKellyRatio_eq_half.mpr rfl)]
  have h5j : (5 : ℚ) ≤ cvHead (crHalfSpike (testKellyRatio j)) := by
    have := hmax 50 (by norm_num)
    rw [h50] at this
    exact this
  have hj50 : j = 50 := by
    by_contra hne
    have htkr : ¬ testKellyRatio j = 1 / 2 := fun hc =>
      hne (testKellyRatio_eq_half.mp hc)
    rw [hval j, if_neg htkr] at h5j
    norm_num at h5j
  subst hj50
  rw [hK]
  exact testKellyRatio_eq_half.mpr rfl

/-- C5 fails on the code: two runs over the same augmented frame whose
searches pick different winning multipliers (1 versus 1/2) and different
winning return series leave IDENTICAL persisted files — the only file
written is the pre-search fractions frame, so neither the winning `k` (only
returned, and printed to stdout) nor the winning series (kept on the
in-memory `_returns` attribute) can be recovered from persisted state by a
later run. -/
theorem kelly_persistence_counterexample :
    (kellyRatioRun [1 / 2] crZero cvZero).persistedFiles =
      (kellyRatioRun [1 / 2] crHalfSpike cvHead).persistedFiles ∧
    (kellyRatioRun [1 / 2] crZero cvZero).result = 1 ∧
    (kellyRatioRun [1 / 2] crHalfSpike cvHead).result = 1 / 2 ∧
    (kellyRatioRun [1 / 2] crZero cvZero).result ≠
      (kellyRatioRun [1 / 2] crHalfSpike cvHead).result ∧
    (kellyRatioRun [1 / 2] crZero cvZero).returnsMem = some [0] ∧
    (kellyRatioRun [1 / 2] crHalfSpike cvHead).returnsMem = some [5] ∧
    (kellyRatioRun [1 / 2] crZero cvZero).returnsMem ≠
      (kellyRatioRun [1 / 2] crHalfSpike cvHead).returnsMem := by
  have hres0 : (kellyRatioRun [1 / 2] crZero cvZero).result = 1 := by
    rw [kellyRatioRun_result]
    exact kellySearch_const_zero
  have hres1 : (kellyRatioRun [1 / 2] crHalfSpike cvHead).result = 1 / 2 := by
    rw [kellyRatioRun_result]
    exact kellySearch_spike
  have hmem0 : (kellyRatioRun [1 / 2] crZero cvZero).returnsMem = some [0] := by
    rw [kellyRatioRun_returnsMem]
    unfold crZero
    rfl
  have hmem1 : (kellyRatioRun [1 / 2] crHalfSpike cvHead).returnsMem = some [5] := by
    rw [kellyRatioRun_returnsMem, kellySearch_spike]
    unfold crHalfSpike
    rw [if_pos rfl]
  refine ⟨rfl, hres0, hres1, ?_, hmem0, hmem1, ?_⟩
  · rw [hres0, hres1]
    norm_num
  · rw [hmem0, hmem1]
    simp

/-- C5 amended: what one `kelly_ratio` call actually does with its results —
the only persisted artifact is the pre-search augmented fractions frame, the
winning series lives on the in-memory `_returns` attribute, and the winning
multiplier (one of the grid candidates, hence positive) is only returned. -/
theorem kelly_ratio_run_effects (augmented : List ℚ) (calcReturns : ℚ → List ℚ)
    (calcValue : List ℚ → ℚ) :
    (kellyRatioRun augmented calcReturns calcValue).persistedFiles
      = [("returns_df.parquet.gzip", augmented)] ∧
    (kellyRatioRun augmented calcReturns calcValue).returnsMem
      = some (calcReturns (kellyRatioRun augmented calcReturns calcValue).result) ∧
    0 < (kellyRatioRun augmented calcReturns calcValue).result ∧
    (kellyRatioRun augmented calcReturns calcValue).result ∈ kellyCandidates := by
  obtain ⟨j, hj, hK, _, _⟩ :=
    kellySearch_spec (fun i => calcValue (calcReturns (testKellyRatio i)))
  refine ⟨rfl, ?_, ?_, ?_⟩
  · rw [kellyRatioRun_returnsMem, kellyRatioRun_result]
  · rw [kellyRatioRun_result, hK]
    exact testKellyRatio_pos hj
  · rw [kellyRatioRun_result, hK]
    exact List.mem_map.mpr ⟨j, List.mem_range.mpr hj, rfl⟩

/-- Closed instance of `kelly_ratio_run_effects`. -/
theorem kelly_ratio_run_effects_witness :
    (kellyRatioRun [0] crZero cvZero).persistedFiles
      = [("returns_df.parquet.gzip", [0])] ∧
    (kellyRatioRun [0] crZero cvZero).returnsMem
      = some (crZero (kellyRatioRun [0] crZero cvZero).result) ∧
    0 < (kellyRatioRun [0] crZero cvZero).result ∧
    (kellyRatioRun [0] crZero cvZero).result ∈ kellyCandidates :=
  kelly_ratio_run_effects [0] crZero cvZero

/-! ## Portfolio.next_bets: recommendation assembly (portfolio.py 120-144)

  for strategy in self._strategies:
      next_df = strategy.next()
      team_count = find_team_count(next_df)
      for _, row in next_df.iterrows():
          bets["bets"].append({..., "kelly": strategy.kelly_ratio, ...})

`Strategy.next` (strategy.py line 442) returns the 3-tuple
`(df, self._wt.feature_importances(df=df), kelly_ratio)`, but the loop binds
that tuple to `next_df` and iterates it as a dataframe.  Python values are
embedded as a small dynamic type so the attribute error is representable. -/

/-- A dynamically typed Python value: a prediction dataframe (rows of
per-team probabilities), a tuple, a float, or a dict. -/
inductive PyVal : Type where
  | pyDataFrame (rows : List (List ℚ)) : PyVal
  | pyTuple (items : List PyVal) : PyVal
  | pyFloat (x : ℚ) : PyVal
  | pyDict : PyVal

/-- The value returned by `Strategy.next` (strategy.py line 442): the
3-tuple `(df, feature_importances, kelly_ratio)`. -/
def strategyNextValue (dfRows : List (List ℚ)) (importances : PyVal)
    (kellyRatio : ℚ) : PyVal :=
  .pyTuple [.pyDataFrame dfRows, importances, .pyFloat kellyRatio]

/-- The attribute access `v.iterrows()`: only a dataframe has it; on any
other value Python raises `AttributeError`. -/
def pyIterrows : PyVal → Except String (List (List ℚ))
  | .pyDataFrame rows => .ok rows
  | _ => .error "AttributeError: iterrows"

/-- Embeds the strategy loop of `Portfolio.next_bets`: each strategy's
`next()` value is iterated as a dataframe and its rows appended to the
output (the per-record field assembly is downstream of the iteration and is
never reached when the iteration itself raises). -/
def portfolioNextBets (nextValues : List PyVal) : Except String (List (List ℚ)) :=
  nextValues.foldlM (fun acc v => do
    let rows ← pyIterrows v
    pure (acc ++ rows)) []

/-- C7 fails on the code: `Portfolio.next_bets` binds `strategy.next()` — a
3-tuple — to `next_df` and iterates it as a dataframe, so for any portfolio
with at least one strategy the call raises `AttributeError` and emits no
recommendation record at all, well-formed or otherwise. -/
theorem next_bets_tuple_mismatch :
    portfolioNextBets [strategyNextValue [[1 / 2, 1 / 2]] .pyDict (3 / 5)] =
      .error "AttributeError: iterrows" ∧
    ∀ (dfRows : List (List ℚ)) (importances : PyVal) (kellyRatio : ℚ),
      pyIterrows (strategyNextValue dfRows importances kellyRatio) =
        .error "AttributeError: iterrows" :=
  ⟨rfl, fun _ _ _ => rfl⟩

end Moneyball
